import Mathlib

/-!
Verification of the streaming status-relay mechanism of the
Strands-Agents Gradio chat application (`main.py`).

The embedding models Python strings as lists of Unicode code points
(`List Char`, matching Python `len` / slicing semantics), the callback's
keyword-argument bag as an explicit record of the probed keys, and the
producer/consumer interleaving of `chat_stream` as a step-indexed small-step
execution over an explicit relay state.  Exceptions swallowed by the source
(`try`/`except` in `status_callback`, the worker capturing `agent_error`)
are modelled by totality of the corresponding Lean functions.
-/

namespace StrandsRelay

/-- Python strings, as sequences of Unicode code points. -/
abbrev PyStr := List Char

/-- The `current_tool_use` dict probed by `status_callback`
(`tool_info.get("name", "unknown")`). -/
structure ToolUse where
  name : Option PyStr
deriving DecidableEq

/-- The keyword-argument bag received by `status_callback` in `main.py`
lines 127-171: the five keys the callback probes, in source order.
`reasoning` and `data` record key presence only (their values are unused by
the source); `complete` records presence plus truthiness. -/
structure Kwargs where
  current_tool_use : Option ToolUse := none
  reasoning : Bool := false
  reasoningText : Option PyStr := none
  data : Bool := false
  complete : Option Bool := none
deriving DecidableEq

/-- `self.current_status` of `MCPChatApp` (`main.py` line 121). -/
structure CurrentStatus where
  message : PyStr
  tool_name : PyStr
  thinking : Bool
deriving DecidableEq

/-- The reset value `{"message": "", "tool_name": "", "thinking": False}`. -/
def resetStatus : CurrentStatus := { message := [], tool_name := [], thinking := false }

/-- `kwargs["reasoningText"][:50] + "..." if len(kwargs["reasoningText"]) > 50
else kwargs["reasoningText"]` (`main.py` lines 149-153). -/
def truncate50 (t : PyStr) : PyStr :=
  if 50 < t.length then t.take 50 ++ "...".toList else t

/-- The queue entry for a tool event: `f"🔧 ツール「{tool_name}」を実行中..."`. -/
def tool_use_msg (tool_name : PyStr) : PyStr :=
  "🔧 ツール「".toList ++ tool_name ++ "」を実行中...".toList

/-- The queue entry for a `reasoning` event. -/
def msg_reasoning : PyStr := "🤔 AIが思考しています...".toList

/-- The queue entry for a `reasoningText` event: `f"🤔 思考: {reasoning_text}"`. -/
def reasoning_text_msg (reasoning_text : PyStr) : PyStr :=
  "🤔 思考: ".toList ++ reasoning_text

/-- The queue entry for a `data` (token chunk) event. -/
def msg_data : PyStr := "✍️ 応答を生成しています...".toList

/-- `status_callback` (`main.py` lines 127-171): probes the keyword bag in
source order (`current_tool_use`, `reasoning`, `reasoningText`, `data`,
`complete`), updates `self.current_status` and appends at most one entry to
`self.stream_status_queue`.  The surrounding `try`/`except` that swallows
exceptions is modelled by this function being total. -/
def status_callback (kw : Kwargs) (st : CurrentStatus) (q : List PyStr) :
    CurrentStatus × List PyStr :=
  match kw.current_tool_use with
  | some tool_info =>
      let tool_name := tool_info.name.getD ("unknown".toList)
      ({ st with tool_name := tool_name,
                 message := "🔧 ツール使用中: ".toList ++ tool_name },
       q ++ [tool_use_msg tool_name])
  | none =>
      if kw.reasoning then
        ({ st with thinking := true, message := "🤔 思考中...".toList },
         q ++ [msg_reasoning])
      else
        match kw.reasoningText with
        | some t =>
            let reasoning_text := truncate50 t
            ({ st with message := "🤔 思考中: ".toList ++ reasoning_text },
             q ++ [reasoning_text_msg reasoning_text])
        | none =>
            if kw.data then
              ({ st with message := "✍️ 応答生成中...".toList, thinking := false },
               q ++ [msg_data])
            else if kw.complete.getD false then
              ({ st with message := [], thinking := false }, q)
            else (st, q)

/-- The closed set of event kinds of the specification's `StatusEvent`. -/
inductive EventKind
  | toolStart
  | reasoningStep
  | reasoningChunk
  | textChunk
  | done
deriving DecidableEq

/-- The classification implicit in `status_callback`'s `if`/`elif` chain:
which branch a keyword bag selects, `none` for unrecognized shapes. -/
def classifyKwargs (kw : Kwargs) : Option EventKind :=
  if kw.current_tool_use.isSome then some EventKind.toolStart
  else if kw.reasoning then some EventKind.reasoningStep
  else if kw.reasoningText.isSome then some EventKind.reasoningChunk
  else if kw.data then some EventKind.textChunk
  else if kw.complete.getD false then some EventKind.done
  else none

/-- The value returned (or raised) by `self.agent(message)`. -/
inductive AgentResponse
  | text (s : PyStr)
  | other (pyRepr : PyStr)
deriving DecidableEq

/-- `if not isinstance(agent_response, str): agent_response = str(agent_response)`
(`main.py` lines 400-401): stringification of a non-text result. -/
def pyStr : AgentResponse → PyStr
  | AgentResponse.text s => s
  | AgentResponse.other pyRepr => pyRepr

/-- The terminal state of one worker invocation (`agent_response`/`agent_error`
in `run_agent`, `main.py` lines 361-369). -/
inductive AgentOutcome
  | success (resp : AgentResponse)
  | failure (err : PyStr)
deriving DecidableEq

/-- The state of one `chat_stream` call: the producer thread's remaining
callback invocations (`pending`), its liveness flag (`agent_thread.is_alive()`),
the shared status fields, the status queue, the loop's `last_status`, and the
snapshots yielded so far. -/
structure RelaySt where
  pending : List Kwargs
  alive : Bool
  status : CurrentStatus
  queue : List PyStr
  last_status : PyStr
  yields : List PyStr
deriving DecidableEq

/-- One scheduling choice: run the producer (worker thread) or the consumer
(the `while agent_thread.is_alive()` loop body). -/
inductive Step
  | produce
  | consume
deriving DecidableEq

/-- One producer step: the next callback invocation runs `status_callback`;
once all invocations are done the thread dies (`is_alive()` becomes false). -/
def produceStep (s : RelaySt) : RelaySt :=
  match s.pending with
  | kw :: rest =>
      let r := status_callback kw s.status s.queue
      { s with pending := rest, status := r.1, queue := r.2 }
  | [] => { s with alive := false }

/-- One consumer loop iteration (`main.py` lines 377-386): while the thread is
alive, pop the queue head if any; yield it only when it differs from
`last_status`.  Once the thread is dead the loop body does nothing (the
`while` condition fails). -/
def consumeStep (s : RelaySt) : RelaySt :=
  if s.alive then
    match s.queue with
    | e :: rest =>
        if e ≠ s.last_status then
          { s with queue := rest, last_status := e, yields := s.yields ++ [e] }
        else
          { s with queue := rest }
    | [] => s
  else s

/-- Dispatch one scheduling choice. -/
def execStep : Step → RelaySt → RelaySt
  | Step.produce, s => produceStep s
  | Step.consume, s => consumeStep s

/-- Run a finite interleaving schedule. -/
def execSteps : List Step → RelaySt → RelaySt
  | [], s => s
  | a :: rest, s => execSteps rest (execStep a s)

/-- The start snapshot `"🚀 処理を開始しています..."` (`main.py` line 349). -/
def msg_start : PyStr := "🚀 処理を開始しています...".toList

/-- The second fixed snapshot `"🤔 AIが思考中です..."` (`main.py` line 357). -/
def msg_thinking_init : PyStr := "🤔 AIが思考中です...".toList

/-- The snapshot `"✍️ 応答を生成中..."` (`main.py` line 412). -/
def msg_generating : PyStr := "✍️ 応答を生成中...".toList

/-- The error snapshot prefix of `main.py` line 432. -/
def errPreamble : PyStr := "申し訳ございません。エラーが発生しました: ".toList

/-- The snapshot yielded when the agent was never initialized (line 341). -/
def msg_agent_none : PyStr := "エラー: Agentが初期化されていません。".toList

/-- The state of a call right after the status reset (lines 344-346), the two
fixed snapshots (lines 349 and 357), and the thread start (line 373). -/
def initSt (bags : List Kwargs) : RelaySt :=
  { pending := bags, alive := true, status := resetStatus,
    queue := [], last_status := [], yields := [msg_start, msg_thinking_init] }

/-- Run the remaining callback invocations of the producer to completion. -/
def pushAll (bags : List Kwargs) (st : CurrentStatus) (q : List PyStr) :
    CurrentStatus × List PyStr :=
  match bags with
  | [] => (st, q)
  | kw :: rest =>
      let r := status_callback kw st q
      pushAll rest r.1 r.2

/-- Let the producer thread run to completion: all remaining callbacks fire,
then the thread dies. -/
def finishProducer (s : RelaySt) : RelaySt :=
  let r := pushAll s.pending s.status s.queue
  { s with pending := [], status := r.1, queue := r.2, alive := false }

/-- `f"\n\n🔧 使用ツール: {...}"` when `self.current_status["tool_name"]` is
truthy, else the empty string (`main.py` lines 404-406). -/
def tool_info_of (st : CurrentStatus) : PyStr :=
  if st.tool_name ≠ [] then "\n\n🔧 使用ツール: ".toList ++ st.tool_name else []

/-- The character-by-character display loop (`main.py` lines 416-421): the
accumulated text is yielded every time its length is a multiple of 15. -/
def streamChunks : List Char → List Char → List PyStr
  | [], _ => []
  | c :: rest, acc =>
      let acc2 := acc ++ [c]
      if acc2.length % 15 = 0 then acc2 :: streamChunks rest acc2
      else streamChunks rest acc2

/-- The success tail of `chat_stream` (lines 399-424): the `"✍️ 応答を生成中..."`
snapshot, the streamed prefixes, then the complete `final_response`. -/
def finalPhase (resp : PyStr) (st : CurrentStatus) : List PyStr :=
  let final_response := resp ++ tool_info_of st
  msg_generating :: (streamChunks final_response [] ++ [final_response])

/-- The snapshots yielded after the relay loop exits, as a function of the
worker outcome and the status fields at that point.  Note that the queue
contents are not consulted: the source never drains the queue after `join()`. -/
def finishTail (oc : AgentOutcome) (st : CurrentStatus) : List PyStr :=
  match oc with
  | AgentOutcome.failure err => [errPreamble ++ err]
  | AgentOutcome.success resp => finalPhase (pyStr resp) st

/-- Everything yielded after the loop exits, appended to the loop's yields. -/
def finishRun (oc : AgentOutcome) (s : RelaySt) : List PyStr :=
  s.yields ++ finishTail oc s.status

/-- A full `chat_stream` call: the fixed start snapshots, a finite interleaving
of producer and consumer steps, the producer running to completion, the loop
exiting at its next liveness check, and the outcome-dependent tail. -/
def chat_stream_run (bags : List Kwargs) (oc : AgentOutcome) (sched : List Step) :
    List PyStr :=
  finishRun oc (finishProducer (execSteps sched (initSt bags)))

/-- `chat_stream` including the `self.agent is None` guard (lines 340-342). -/
def chat_stream_full (agent_some : Bool) (bags : List Kwargs) (oc : AgentOutcome)
    (sched : List Step) : List PyStr :=
  if agent_some then chat_stream_run bags oc sched else [msg_agent_none]

/-- Collapse of immediate repeats after a given last-yielded value. -/
def collapseAfter (last : PyStr) : List PyStr → List PyStr
  | [] => []
  | e :: rest => if e = last then collapseAfter last rest else e :: collapseAfter e rest

/-- A sequence with its immediate repeats collapsed (spec P5). -/
def collapseRepeats : List PyStr → List PyStr
  | [] => []
  | e :: rest => e :: collapseAfter e rest

end StrandsRelay

namespace StrandsRelay

/-- Snapshots produced by the loop phase all begin with one of the four
characters the source puts at the head of its status strings ('🚀' and '🤔'
for the two fixed snapshots, '🔧', '🤔' and '✍' for queue entries). -/
def uiHeadOk (e : PyStr) : Prop :=
  e.head? = some '🚀' ∨ e.head? = some '🤔' ∨ e.head? = some '🔧' ∨ e.head? = some '✍'

/-- Invariant of the loop phase: every queued and every yielded snapshot
starts with one of the recognized status heads. -/
def stOk (s : RelaySt) : Prop :=
  (∀ e ∈ s.queue, uiHeadOk e) ∧ (∀ e ∈ s.yields, uiHeadOk e)

/-- Number of producer steps in a schedule. -/
def produceCount : List Step → Nat
  | [] => 0
  | Step.produce :: rest => produceCount rest + 1
  | Step.consume :: rest => produceCount rest

/-- The two instance-level fields of `MCPChatApp` that `status_callback` and
`chat_stream` share (`main.py` lines 121 and 124): they live on the
application object, not on the call. -/
structure AppShared where
  current_status : CurrentStatus
  stream_status_queue : List PyStr
deriving DecidableEq

/-- `status_callback` acting on the shared instance fields. -/
def app_status_callback (kw : Kwargs) (a : AppShared) : AppShared :=
  let r := status_callback kw a.current_status a.stream_status_queue
  { current_status := r.1, stream_status_queue := r.2 }

/-- The reset `chat_stream` performs on the shared fields (lines 344-346). -/
def app_reset : AppShared := { current_status := resetStatus, stream_status_queue := [] }

/-- One iteration of a call's relay-loop body against the shared queue: the
call's own `last_status` and yielded snapshots are threaded through. -/
def app_consume (a : AppShared) (last : PyStr) (ys : List PyStr) :
    AppShared × PyStr × List PyStr :=
  match a.stream_status_queue with
  | [] => (a, last, ys)
  | e :: rest =>
      if e ≠ last then ({ a with stream_status_queue := rest }, e, ys ++ [e])
      else ({ a with stream_status_queue := rest }, last, ys)

/-- A keyword bag carrying all five recognized fields at once. -/
def kwAllFields : Kwargs :=
  { current_tool_use := some { name := some ("calculate".toList) },
    reasoning := true, reasoningText := some ("xyz".toList),
    data := true, complete := some true }

/-- A tool-use bag emitted by a concurrent call. -/
def kwToolX : Kwargs := { current_tool_use := some { name := some ("X".toList) } }

end StrandsRelay

namespace StrandsRelay

lemma finishProducer_yields (s : RelaySt) : (finishProducer s).yields = s.yields := rfl

lemma finishRun_eq (oc : AgentOutcome) (s : RelaySt) :
    finishRun oc s = s.yields ++ finishTail oc s.status := rfl

lemma chat_run_decomp (bags : List Kwargs) (oc : AgentOutcome) (sched : List Step) :
    chat_stream_run bags oc sched
      = (execSteps sched (initSt bags)).yields
        ++ finishTail oc (finishProducer (execSteps sched (initSt bags))).status := by
  rw [chat_stream_run, finishRun_eq, finishProducer_yields]

lemma execStep_yields_ext (a : Step) (s : RelaySt) :
    ∃ ext, (execStep a s).yields = s.yields ++ ext := by
  cases a with
  | produce =>
      cases h : s.pending with
      | nil => exact ⟨[], by simp [execStep, produceStep, h]⟩
      | cons kw rest => exact ⟨[], by simp [execStep, produceStep, h]⟩
  | consume =>
      by_cases h : s.alive
      · cases hq : s.queue with
        | nil => exact ⟨[], by simp [execStep, consumeStep, h, hq]⟩
        | cons e rest =>
            by_cases he : e ≠ s.last_status
            · exact ⟨[e], by simp [execStep, consumeStep, h, hq, he]⟩
            · exact ⟨[], by simp [execStep, consumeStep, h, hq, he]⟩
      · exact ⟨[], by simp [execStep, consumeStep, h]⟩

lemma yields_extension (sched : List Step) :
    ∀ s : RelaySt, ∃ ext, (execSteps sched s).yields = s.yields ++ ext := by
  induction sched with
  | nil => exact fun s => ⟨[], by simp [execSteps]⟩
  | cons a rest ih =>
      intro s
      obtain ⟨e1, h1⟩ := execStep_yields_ext a s
      obtain ⟨e2, h2⟩ := ih (execStep a s)
      exact ⟨e1 ++ e2, by simp [execSteps, h2, h1]⟩

lemma consume_yields (l : List PyStr) :
    ∀ (p : List Kwargs) (st : CurrentStatus) (last : PyStr) (ys : List PyStr),
    (execSteps (List.replicate l.length Step.consume)
        (RelaySt.mk p true st l last ys)).yields
      = ys ++ collapseAfter last l := by
  induction l with
  | nil => intro p st last ys; simp [execSteps, collapseAfter]
  | cons e rest ih =>
      intro p st last ys
      by_cases he : e = last
      · have hstep : consumeStep (RelaySt.mk p true st (e :: rest) last ys)
            = RelaySt.mk p true st rest last ys := by
          simp [consumeStep, he]
        rw [List.length_cons, List.replicate_succ]
        show (execSteps (List.replicate rest.length Step.consume)
            (execStep Step.consume (RelaySt.mk p true st (e :: rest) last ys))).yields = _
        rw [show execStep Step.consume (RelaySt.mk p true st (e :: rest) last ys)
              = RelaySt.mk p true st rest last ys from hstep]
        rw [ih p st last ys]
        simp [collapseAfter, he]
      · have hstep : consumeStep (RelaySt.mk p true st (e :: rest) last ys)
            = RelaySt.mk p true st rest e (ys ++ [e]) := by
          simp [consumeStep, he]
        rw [List.length_cons, List.replicate_succ]
        show (execSteps (List.replicate rest.length Step.consume)
            (execStep Step.consume (RelaySt.mk p true st (e :: rest) last ys))).yields = _
        rw [show execStep Step.consume (RelaySt.mk p true st (e :: rest) last ys)
              = RelaySt.mk p true st rest e (ys ++ [e]) from hstep]
        rw [ih p st e (ys ++ [e])]
        simp [collapseAfter, he]

lemma collapseAfter_nil_eq (l : List PyStr) (h : ∀ e ∈ l, e ≠ []) :
    collapseAfter [] l = collapseRepeats l := by
  cases l with
  | nil => rfl
  | cons e rest =>
      have he : e ≠ [] := h e (by simp)
      simp [collapseAfter, collapseRepeats, he]

lemma uiHeadOk_tool (n : PyStr) : uiHeadOk (tool_use_msg n) := Or.inr (Or.inr (Or.inl rfl))

lemma uiHeadOk_reasoning : uiHeadOk msg_reasoning := Or.inr (Or.inl rfl)

lemma uiHeadOk_rt (r : PyStr) : uiHeadOk (reasoning_text_msg r) := Or.inr (Or.inl rfl)

lemma uiHeadOk_data : uiHeadOk msg_data := Or.inr (Or.inr (Or.inr rfl))

lemma callback_queue_shape (kw : Kwargs) (st : CurrentStatus) (q : List PyStr) :
    (status_callback kw st q).2 = q
    ∨ ∃ m, uiHeadOk m ∧ (status_callback kw st q).2 = q ++ [m] := by
  rcases kw with ⟨- | tu, _ | _, - | t, _ | _, - | (_ | _)⟩ <;>
    simp [status_callback] <;>
    first
      | exact uiHeadOk_tool _
      | exact uiHeadOk_reasoning
      | exact uiHeadOk_rt _
      | exact uiHeadOk_data

lemma stOk_execStep (a : Step) (s : RelaySt) (h : stOk s) : stOk (execStep a s) := by
  obtain ⟨hq, hy⟩ := h
  cases a with
  | produce =>
      cases hp : s.pending with
      | nil => exact ⟨by simpa [execStep, produceStep, hp] using hq,
                     by simpa [execStep, produceStep, hp] using hy⟩
      | cons kw rest =>
          constructor
          · intro e he
            simp only [execStep, produceStep, hp] at he
            rcases callback_queue_shape kw s.status s.queue with hsh | ⟨m, hm, hsh⟩
            · exact hq e (by rwa [hsh] at he)
            · rw [hsh] at he
              rcases List.mem_append.mp he with h1 | h2
              · exact hq e h1
              · rw [List.mem_singleton.mp h2]; exact hm
          · intro e he
            simp only [execStep, produceStep, hp] at he
            exact hy e he
  | consume =>
      by_cases ha : s.alive
      · cases hqe : s.queue with
        | nil => exact ⟨by simp [execStep, consumeStep, ha, hqe],
                       by simpa [execStep, consumeStep, ha, hqe] using hy⟩
        | cons e rest =>
            have he : uiHeadOk e := hq e (by rw [hqe]; simp)
            have hrest : ∀ x ∈ rest, uiHeadOk x := fun x hx => hq x (by rw [hqe]; simp [hx])
            by_cases hne : e = s.last_status
            · exact ⟨by simpa [execStep, consumeStep, ha, hqe, hne] using hrest,
                     by simpa [execStep, consumeStep, ha, hqe, hne] using hy⟩
            · constructor
              · simpa [execStep, consumeStep, ha, hqe, hne] using hrest
              · intro x hx
                rcases (by simpa [execStep, consumeStep, ha, hqe, hne] using hx :
                    x ∈ s.yields ∨ x = e) with h1 | h1
                · exact hy x h1
                · rw [h1]; exact he
      · exact ⟨by simpa [execStep, consumeStep, ha] using hq,
               by simpa [execStep, consumeStep, ha] using hy⟩

lemma stOk_execSteps (sched : List Step) :
    ∀ s : RelaySt, stOk s → stOk (execSteps sched s) := by
  induction sched with
  | nil => intro s h; simpa [execSteps] using h
  | cons a rest ih => intro s h; exact ih _ (stOk_execStep a s h)

lemma stOk_init (bags : List Kwargs) : stOk (initSt bags) := by
  constructor
  · intro e he; simp [initSt] at he
  · intro e he
    rcases (by simpa [initSt] using he : e = msg_start ∨ e = msg_thinking_init) with h | h
    · rw [h]; exact Or.inl rfl
    · rw [h]; exact Or.inr (Or.inl rfl)

lemma err_head (err : PyStr) : (errPreamble ++ err).head? = some '申' := rfl

lemma err_not_uiHeadOk (err : PyStr) : ¬ uiHeadOk (errPreamble ++ err) := by
  intro h
  rcases h with h | h | h | h <;> rw [err_head] at h <;> exact absurd h (by decide)

lemma getLast?_cons_concat (a : PyStr) (l : List PyStr) (x : PyStr) :
    (a :: (l ++ [x])).getLast? = some x := by
  rw [show a :: (l ++ [x]) = (a :: l) ++ [x] from rfl, List.getLast?_concat]

lemma quiet_exec (sched : List Step) :
    ∀ s : RelaySt, s.pending = [] → s.queue = [] →
    (execSteps sched s).pending = [] ∧ (execSteps sched s).queue = []
    ∧ (execSteps sched s).status = s.status ∧ (execSteps sched s).yields = s.yields := by
  induction sched with
  | nil => intro s h1 h2; simp [execSteps, h1, h2]
  | cons a rest ih =>
      intro s h1 h2
      have hstep : (execStep a s).pending = [] ∧ (execStep a s).queue = []
          ∧ (execStep a s).status = s.status ∧ (execStep a s).yields = s.yields := by
        cases a with
        | produce => simp [execStep, produceStep, h1, h2]
        | consume => by_cases h : s.alive <;> simp [execStep, consumeStep, h, h1, h2]
      obtain ⟨p1, p2, p3, p4⟩ := hstep
      obtain ⟨q1, q2, q3, q4⟩ := ih (execStep a s) p1 p2
      exact ⟨q1, q2, q3.trans p3, q4.trans p4⟩

lemma streamChunks_prefix : ∀ (cs acc : List Char) (s : PyStr),
    s ∈ streamChunks cs acc → ∃ t, s ++ t = acc ++ cs := by
  intro cs
  induction cs with
  | nil => intro acc s h; simp [streamChunks] at h
  | cons c rest ih =>
      intro acc s h
      simp only [streamChunks] at h
      by_cases hc : (acc ++ [c]).length % 15 = 0
      · rw [if_pos hc] at h
        rcases List.mem_cons.mp h with h1 | h2
        · exact ⟨rest, by rw [h1]; simp⟩
        · obtain ⟨t, ht⟩ := ih (acc ++ [c]) s h2
          exact ⟨t, by rw [ht]; simp⟩
      · rw [if_neg hc] at h
        obtain ⟨t, ht⟩ := ih (acc ++ [c]) s h
        exact ⟨t, by rw [ht]; simp⟩

lemma produceCount_append (l m : List Step) :
    produceCount (l ++ m) = produceCount l + produceCount m := by
  induction l with
  | nil => simp [produceCount]
  | cons a rest ih => cases a <;> (simp [produceCount, ih]; try omega)

lemma alive_false_stable (sched : List Step) :
    ∀ s : RelaySt, s.alive = false → (execSteps sched s).alive = false := by
  induction sched with
  | nil => intro s h; simpa [execSteps] using h
  | cons a rest ih =>
      intro s h
      show (execSteps rest (execStep a s)).alive = false
      apply ih
      cases a with
      | produce => cases hp : s.pending <;> simp [execStep, produceStep, hp, h]
      | consume => simp [execStep, consumeStep, h]

lemma consumeStep_pending_alive (s : RelaySt) :
    (consumeStep s).pending = s.pending ∧ (consumeStep s).alive = s.alive := by
  by_cases h : s.alive
  · cases hq : s.queue with
    | nil => simp [consumeStep, h, hq]
    | cons e rest => by_cases he : e = s.last_status <;> simp [consumeStep, h, hq, he]
  · simp [consumeStep, h]

lemma produce_count_kills : ∀ (sched : List Step) (s : RelaySt),
    s.pending.length + 1 ≤ produceCount sched →
    (execSteps sched s).alive = false := by
  intro sched
  induction sched with
  | nil => intro s h; simp [produceCount] at h
  | cons a rest ih =>
      intro s h
      cases a with
      | consume =>
          show (execSteps rest (consumeStep s)).alive = false
          apply ih
          rw [(consumeStep_pending_alive s).1]
          simpa [produceCount] using h
      | produce =>
          cases hp : s.pending with
          | nil =>
              show (execSteps rest (produceStep s)).alive = false
              apply alive_false_stable
              simp [produceStep, hp]
          | cons kw r =>
              show (execSteps rest (produceStep s)).alive = false
              apply ih
              have hpend : (produceStep s).pending = r := by simp [produceStep, hp]
              rw [hpend]
              have hlen : s.pending.length = r.length + 1 := by rw [hp]; simp
              have hcount : produceCount (Step.produce :: rest) = produceCount rest + 1 := rfl
              omega

lemma produceCount_range_mono (σ : Nat → Step) :
    ∀ (d N : Nat), produceCount ((List.range N).map σ)
      ≤ produceCount ((List.range (N + d)).map σ) := by
  intro d
  induction d with
  | zero => intro N; simp
  | succ d ih =>
      intro N
      have h1 := ih N
      have h2 : produceCount ((List.range (N + d + 1)).map σ)
          = produceCount ((List.range (N + d)).map σ) + produceCount [σ (N + d)] := by
        rw [show N + d + 1 = (N + d) + 1 from rfl, List.range_succ, List.map_append,
            produceCount_append]
        simp
      have h3 : N + (d + 1) = N + d + 1 := by omega
      rw [h3, h2]
      omega

lemma produceCount_unbounded (σ : Nat → Step)
    (hfair : ∀ k, ∃ n, k ≤ n ∧ σ n = Step.produce) :
    ∀ j, ∃ N, j ≤ produceCount ((List.range N).map σ) := by
  intro j
  induction j with
  | zero => exact ⟨0, Nat.zero_le _⟩
  | succ j ih =>
      obtain ⟨N, hN⟩ := ih
      obtain ⟨n, hge, hp⟩ := hfair N
      refine ⟨n + 1, ?_⟩
      have h1 : produceCount ((List.range (n + 1)).map σ)
          = produceCount ((List.range n).map σ) + 1 := by
        rw [List.range_succ, List.map_append, produceCount_append]
        simp [produceCount, hp]
      have h2 : produceCount ((List.range N).map σ)
          ≤ produceCount ((List.range n).map σ) := by
        obtain ⟨d, rfl⟩ := Nat.exists_eq_add_of_le hge
        exact produceCount_range_mono σ d N
      omega

end StrandsRelay

namespace StrandsRelay

/-- Claim C1: `status_callback` classifies every keyword bag into at most one
event kind using the fixed precedence tool-invocation over reasoning over
raw-token over completion — a bag with a `current_tool_use` field yields the
tool event whatever else it carries, and so on down the chain — while a bag
matching none of the recognized shapes leaves the queue and status untouched
(and, the function being total, no exception escapes to the agent call). -/
theorem status_callback_precedence (kw : Kwargs) (st : CurrentStatus) (q : List PyStr) :
    ((status_callback kw st q).2.length ≤ q.length + 1)
  ∧ (∀ tu, kw.current_tool_use = some tu →
        (status_callback kw st q).2 = q ++ [tool_use_msg (tu.name.getD ("unknown".toList))])
  ∧ (kw.current_tool_use = none → kw.reasoning = true →
        (status_callback kw st q).2 = q ++ [msg_reasoning])
  ∧ (∀ t, kw.current_tool_use = none → kw.reasoning = false → kw.reasoningText = some t →
        (status_callback kw st q).2 = q ++ [reasoning_text_msg (truncate50 t)])
  ∧ (kw.current_tool_use = none → kw.reasoning = false → kw.reasoningText = none →
        kw.data = true → (status_callback kw st q).2 = q ++ [msg_data])
  ∧ (kw.current_tool_use = none → kw.reasoning = false → kw.reasoningText = none →
        kw.data = false → kw.complete.getD false = true →
        status_callback kw st q = ({ st with message := [], thinking := false }, q))
  ∧ (classifyKwargs kw = none → status_callback kw st q = (st, q)) := by
  rcases kw with ⟨- | tu, _ | _, - | t, _ | _, - | (_ | _)⟩ <;>
    simp [status_callback, classifyKwargs]

/-- Witness for C1: a bag carrying all five fields is classified as a tool
event, the rest of the fields notwithstanding. -/
theorem status_callback_precedence_witness :
    (status_callback kwAllFields resetStatus []).2
      = [] ++ [tool_use_msg ("calculate".toList)] :=
  (status_callback_precedence kwAllFields resetStatus []).2.1
    { name := some ("calculate".toList) } rfl

/-- Claim C2, counterexample: one `data` event is pushed by the callback
before the worker signals completion, the consumer never polls before the
thread dies, and the loop exits without draining — the event is still in the
queue, is never yielded, yet the final snapshot `"6"` is yielded. -/
theorem relay_event_loss_cex :
    msg_data ∉ chat_stream_run [{ data := true }]
        (AgentOutcome.success (AgentResponse.text ("6".toList))) []
  ∧ (chat_stream_run [{ data := true }]
        (AgentOutcome.success (AgentResponse.text ("6".toList))) []).getLast?
      = some ("6".toList)
  ∧ msg_data ∈ (finishProducer (execSteps [] (initSt [{ data := true }]))).queue := by
  decide

/-- Claim C2, amended: every event popped and rendered during the relay loop
is yielded before the final snapshot, but the loop never drains the queue
after `join()` — once `is_alive()` is observed false the call appends the
outcome tail directly, a function of the outcome and the status fields only,
so events still enqueued at loop exit are dropped unobserved. -/
theorem relay_no_drain_after_join (bags : List Kwargs) (oc : AgentOutcome)
    (sched : List Step) :
    chat_stream_run bags oc sched
      = (execSteps sched (initSt bags)).yields
        ++ finishTail oc (finishProducer (execSteps sched (initSt bags))).status :=
  chat_run_decomp bags oc sched

/-- Claim C3: for every reasoning-text callback, the enqueued entry is the
bounded preview — at most 53 code points of reasoning text (50-character
slice plus ellipsis) inside a message of at most 59 code points, whatever the
input length — and an input longer than 50 characters is enqueued only as its
50-character prefix plus `"..."`, never in full. -/
theorem reasoning_text_truncation (t : PyStr) (st : CurrentStatus) (q : List PyStr) :
    ((status_callback { reasoningText := some t } st q).2
        = q ++ [reasoning_text_msg (truncate50 t)])
  ∧ (truncate50 t).length ≤ 53
  ∧ (reasoning_text_msg (truncate50 t)).length ≤ 59
  ∧ (50 < t.length → truncate50 t = t.take 50 ++ "...".toList) := by
  refine ⟨by simp [status_callback], ?_, ?_, ?_⟩
  · by_cases h : 50 < t.length <;> (simp [truncate50, h]; try omega)
  · by_cases h : 50 < t.length <;>
      (simp [truncate50, h, reasoning_text_msg, List.length_append]; try omega)
  · intro h; simp [truncate50, h]

/-- Witness for C3: a 10,000-character reasoning text is enqueued as a
59-code-point message holding only its 50-character prefix plus ellipsis. -/
theorem reasoning_text_truncation_witness :
    50 < (List.replicate 10000 'a').length
  ∧ (reasoning_text_msg (truncate50 (List.replicate 10000 'a'))).length ≤ 59
  ∧ truncate50 (List.replicate 10000 'a')
      = (List.replicate 10000 'a').take 50 ++ "...".toList := by
  have h := reasoning_text_truncation (List.replicate 10000 'a') resetStatus []
  exact ⟨by rw [List.length_replicate]; norm_num,
         h.2.2.1, h.2.2.2 (by rw [List.length_replicate]; norm_num)⟩

/-- Claim C4: the relay state is instance-level, not call-scoped.  With call A
freshly reset and inside its loop, a single callback of a concurrent call B
(tool `"X"`) lands in the shared `stream_status_queue` and shared
`current_status`: A's next loop iteration yields B's tool event, and A's
final transcript suffix carries B's tool name.  This evaluates the shared
fields of the source at the interleaving that violates the claim. -/
theorem shared_state_cross_call :
    (app_consume (app_status_callback kwToolX app_reset) [] []).2.2
        = [tool_use_msg ("X".toList)]
  ∧ tool_info_of (app_status_callback kwToolX app_reset).current_status
        = "\n\n🔧 使用ツール: ".toList ++ "X".toList := by
  decide

/-- Claim C5: when the worker captures a failure, the relay appends exactly
one error snapshot — the fixed apology prefix followed by `str(e)` — as the
last element of the yielded sequence; no other yielded snapshot equals it,
and the captured exception reaches the consumer only as this rendered
string. -/
theorem relay_failure_single_error (bags : List Kwargs) (err : PyStr) (sched : List Step) :
    (chat_stream_run bags (AgentOutcome.failure err) sched).getLast?
      = some (errPreamble ++ err)
  ∧ (chat_stream_run bags (AgentOutcome.failure err) sched).count (errPreamble ++ err) = 1 := by
  have hdec := chat_run_decomp bags (AgentOutcome.failure err) sched
  have hok : stOk (execSteps sched (initSt bags)) := stOk_execSteps _ _ (stOk_init bags)
  have hnot : (errPreamble ++ err) ∉ (execSteps sched (initSt bags)).yields :=
    fun hmem => err_not_uiHeadOk err (hok.2 _ hmem)
  constructor
  · rw [hdec]; simp [finishTail]
  · rw [hdec]; simp [finishTail, List.count_append, List.count_eq_zero.mpr hnot]

/-- Claim C6: running the relay loop over any popped sequence of (nonempty)
events yields exactly that sequence with immediate repeats collapsed —
consecutive identical events produce one rendered update, non-adjacent
duplicates are each yielded.  Every entry the callback enqueues is nonempty
(it starts with a status emoji, see `callback_queue_shape`), so the
hypothesis holds for every sequence the source can pop. -/
theorem relay_dedup_consecutive (popped : List PyStr) (h : ∀ e ∈ popped, e ≠ []) :
    (execSteps (List.replicate popped.length Step.consume)
        (RelaySt.mk [] true resetStatus popped [] [])).yields
      = collapseRepeats popped := by
  rw [consume_yields popped [] resetStatus [] []]
  simp [collapseAfter_nil_eq popped h]

/-- Witness for C6 (spec Scenario B): a tool-start event followed by three
identical text events yields the tool snapshot and one text snapshot. -/
theorem relay_dedup_consecutive_witness :
    (execSteps (List.replicate
        ([tool_use_msg ("calculate".toList), msg_data, msg_data, msg_data]).length
        Step.consume)
        (RelaySt.mk [] true resetStatus
          [tool_use_msg ("calculate".toList), msg_data, msg_data, msg_data] [] [])).yields
      = collapseRepeats [tool_use_msg ("calculate".toList), msg_data, msg_data, msg_data]
  ∧ collapseRepeats [tool_use_msg ("calculate".toList), msg_data, msg_data, msg_data]
      = [tool_use_msg ("calculate".toList), msg_data] :=
  ⟨relay_dedup_consecutive _ (by decide), by decide⟩

/-- Claim C7: on success the last yielded snapshot equals the operation's
result — stringified first when it is not text (`pyStr`) — with the recorded
tool-usage summary appended. -/
theorem relay_success_final (bags : List Kwargs) (resp : AgentResponse) (sched : List Step) :
    (chat_stream_run bags (AgentOutcome.success resp) sched).getLast?
      = some (pyStr resp
          ++ tool_info_of (finishProducer (execSteps sched (initSt bags))).status) := by
  rw [chat_run_decomp]
  simp [finishTail, finalPhase, getLast?_cons_concat]

/-- Claim C8: with zero status events the call still yields the initial
started snapshot and, last, the final snapshot equal to the result; and no
call — agent initialized or not, any events, any outcome, any interleaving —
ever terminates with an empty yielded sequence. -/
theorem relay_silent_completion (resp : AgentResponse) (sched : List Step) :
    msg_start ∈ chat_stream_run [] (AgentOutcome.success resp) sched
  ∧ (chat_stream_run [] (AgentOutcome.success resp) sched).getLast? = some (pyStr resp)
  ∧ ∀ (ag : Bool) (bags : List Kwargs) (oc : AgentOutcome) (sched2 : List Step),
      chat_stream_full ag bags oc sched2 ≠ [] := by
  have hq := quiet_exec sched (initSt []) rfl rfl
  refine ⟨?_, ?_, ?_⟩
  · rw [chat_run_decomp, hq.2.2.2]
    simp [initSt]
  · rw [chat_run_decomp]
    have hst : (finishProducer (execSteps sched (initSt []))).status
        = (execSteps sched (initSt [])).status := by
      simp [finishProducer, hq.1, pushAll]
    rw [hst, hq.2.2.1]
    have hti : tool_info_of (initSt []).status = [] := by decide
    simp [finishTail, finalPhase, hti, getLast?_cons_concat]
  · intro ag bags oc sched2
    cases ag with
    | false => simp [chat_stream_full, msg_agent_none]
    | true =>
        simp only [chat_stream_full, if_true]
        rw [chat_run_decomp]
        obtain ⟨ext, hext⟩ := yields_extension sched2 (initSt bags)
        rw [hext]
        simp [initSt]

/-- Claim C9: under any fair infinite interleaving — the producer, which
terminates by hypothesis, is always eventually scheduled — the relay loop's
liveness condition becomes false after finitely many steps and the call
yields a finite, nonempty sequence; this covers zero-event runs and runs
whose opaque call raises immediately. -/
theorem relay_termination (bags : List Kwargs) (oc : AgentOutcome) (σ : Nat → Step)
    (hfair : ∀ k, ∃ n, k ≤ n ∧ σ n = Step.produce) :
    ∃ N, (execSteps ((List.range N).map σ) (initSt bags)).alive = false
      ∧ chat_stream_run bags oc ((List.range N).map σ) ≠ [] := by
  obtain ⟨N, hN⟩ := produceCount_unbounded σ hfair (bags.length + 1)
  refine ⟨N, ?_, ?_⟩
  · exact produce_count_kills _ _ (by simpa [initSt] using hN)
  · rw [chat_run_decomp]
    obtain ⟨ext, hext⟩ := yields_extension ((List.range N).map σ) (initSt bags)
    rw [hext]
    simp [initSt]

/-- Witness for C9 (spec Scenario A): zero events and an immediately raising
opaque call, under the schedule that always runs the producer. -/
theorem relay_termination_witness :
    ∃ N, (execSteps ((List.range N).map (fun _ => Step.produce)) (initSt [])).alive = false
      ∧ chat_stream_run [] (AgentOutcome.failure ("upstream down".toList))
          ((List.range N).map (fun _ => Step.produce)) ≠ [] :=
  relay_termination [] (AgentOutcome.failure ("upstream down".toList))
    (fun _ => Step.produce) (fun k => ⟨k, Nat.le_refl k, rfl⟩)

/-- Claim C10: in the character-by-character display phase every intermediate
snapshot is a prefix of the final transcript (result plus tool summary), and
the last snapshot of the phase is the complete final transcript, whatever the
transcript's length. -/
theorem stream_prefix_property (resp : PyStr) (st : CurrentStatus) :
    (∀ s ∈ streamChunks (resp ++ tool_info_of st) [],
        ∃ t, s ++ t = resp ++ tool_info_of st)
  ∧ (finalPhase resp st).getLast? = some (resp ++ tool_info_of st) := by
  constructor
  · intro s hs
    simpa using streamChunks_prefix (resp ++ tool_info_of st) [] s hs
  · simp [finalPhase, getLast?_cons_concat]

/-- Witness for C10: for a 30-character transcript the 15-character chunk
yielded by the display loop is a prefix of the transcript. -/
theorem stream_prefix_property_witness :
    ∃ t, List.replicate 15 'a' ++ t
      = List.replicate 30 'a' ++ tool_info_of resetStatus :=
  (stream_prefix_property (List.replicate 30 'a') resetStatus).1
    (List.replicate 15 'a') (by decide)

end StrandsRelay
